import Mathlib

/- Shallow embedding of the deno-imap protocol engine (AjaniBilby/deno-imap).

   Components embedded below, each from the corresponding source file:
   - decimal rendering helpers shared by several embeddings (JS Number.prototype.toString
     base 10, and parseInt base 10 on digit strings);
   - tag allocation and the client lifecycle state writes of ImapClient
     (src/client.ts: generateTag, disconnect, reconnect);
   - the reconnect-with-exponential-backoff loop (src/client.ts reconnect);
   - the sort compiler MakeOrderBy (engine);
   - the FETCH response-line grouper (client fetch);
   - the parenthesized-structure parser ParseParenthesized with TryString,
     TryLiteral and TryKeyword (parsers/parameters.ts);
   - envelope decoding ParseEnvelope / ParseImapAddressList (parsers/fetch.ts,
     parsers/parameters.ts);
   - the search query compiler fragments of MakeWhereQuery (date terms and flag
     terms) with AddSafeFlag;
   - the client-side matcher MatchesWhere with MatchWhereValue, MatchWhereText,
     MatchWhereScalar and AddressComparator;
   - the command dispatch read loop of executeCommand (src/client.ts).

   JS strings are modelled as List Char (one Char per UTF-16 code unit; all the
   inputs of interest are ASCII so lengths and indexing agree), JS numbers used
   as integers are Nat or Int, undefined-able values are Option, thrown
   exceptions are Except.error. -/

namespace ImapSpec

/-! Decimal helpers: JS renders the tag counter with Number.prototype.toString
    (base 10) and parses literal sizes with parseInt(s, 10). -/

/-- The decimal digit character for a value 0-9 (other inputs are unreachable
    and map to a placeholder). -/
def digitChar : Nat → Char
  | 0 => '0'
  | 1 => '1'
  | 2 => '2'
  | 3 => '3'
  | 4 => '4'
  | 5 => '5'
  | 6 => '6'
  | 7 => '7'
  | 8 => '8'
  | 9 => '9'
  | _ => '?'

/-- Base-10 rendering of a natural number, most significant digit first,
    as produced by JS Number.prototype.toString for a nonnegative integer. -/
def natToDigits (n : Nat) : List Char :=
  if _h : n < 10 then [digitChar n]
  else natToDigits (n / 10) ++ [digitChar (n % 10)]
decreasing_by exact Nat.div_lt_self (by omega) (by omega)

/-- Value of a digit string, as computed by parseInt(s, 10) on a string of
    decimal digits (leading zeros allowed). -/
def digitsToNat (l : List Char) : Nat :=
  l.foldl (fun a c => a * 10 + (c.toNat - 48)) 0

/-! Tag allocation and lifecycle (src/client.ts).

    Source: the field tagCounter starts at 0; generateTag does
    tagCounter++ and returns 'A' + tagCounter.toString().padStart(4, '0').
    The finally block of disconnect resets authenticated, selectedMailbox,
    capabilities, activeCommands, reconnectAttempts and isReconnecting; the
    reconnect routine resets authenticated, selectedMailbox and capabilities.
    Neither resets tagCounter. -/

/-- s.padStart(4, '0') on a digit string. -/
def padStart4 (l : List Char) : List Char :=
  List.replicate (4 - l.length) '0' ++ l

/-- The tag string returned by generateTag for counter value n. -/
def generateTagString (n : Nat) : List Char :=
  'A' :: padStart4 (natToDigits n)

/-- Recovers the counter value from a generated tag (drops the prefix and
    reads the padded decimal digits). -/
def tagNumber (t : List Char) : Nat :=
  digitsToNat (t.drop 1)

/-- The mutable client fields written by generateTag, disconnect and
    reconnect (src/client.ts). -/
structure ClientState where
  tagCounter : Nat
  authenticated : Bool
  selectedMailbox : Option String
  capabilities : List String
  reconnectAttempts : Nat
  isReconnecting : Bool
deriving DecidableEq

/-- The three state-writing events relevant to the tag counter: a tag
    allocation, the state reset in the finally block of disconnect, and the
    state reset at the start of reconnect. -/
inductive ClientEvent where
  | generateTag : ClientEvent
  | disconnectReset : ClientEvent
  | reconnectReset : ClientEvent
deriving DecidableEq

/-- One event step; returns the new state and the tag issued, if any.
    generateTag increments tagCounter and renders it; disconnect resets
    authenticated and selectedMailbox and capabilities and reconnectAttempts
    and isReconnecting but not tagCounter; reconnect resets authenticated and
    selectedMailbox and capabilities but not tagCounter. -/
def stepClient (s : ClientState) : ClientEvent → ClientState × Option (List Char)
  | ClientEvent.generateTag =>
    (⟨s.tagCounter + 1, s.authenticated, s.selectedMailbox, s.capabilities,
      s.reconnectAttempts, s.isReconnecting⟩,
     some (generateTagString (s.tagCounter + 1)))
  | ClientEvent.disconnectReset =>
    (⟨s.tagCounter, false, none, [], 0, false⟩, none)
  | ClientEvent.reconnectReset =>
    (⟨s.tagCounter, false, none, [], s.reconnectAttempts, s.isReconnecting⟩, none)

/-- Runs a sequence of events, collecting every tag issued, in order. -/
def runClient (s : ClientState) : List ClientEvent → ClientState × List (List Char)
  | [] => (s, [])
  | e :: es =>
    let step := stepClient s e
    let rest := runClient step.1 es
    (rest.1, step.2.toList ++ rest.2)

/-- The client state at construction: tagCounter = 0, nothing selected. -/
def initialClientState : ClientState :=
  ⟨0, false, none, [], 0, false⟩

/-! Reconnection with exponential backoff (src/client.ts reconnect).

    Source: while reconnectAttempts < maxReconnectAttempts, wait
    reconnectDelay * 2 ^ reconnectAttempts milliseconds, then try to connect
    and re-authenticate; on success return, on error increment the attempt
    counter and loop. When the loop exhausts the attempts it throws
    ImapConnectionError("Failed to reconnect after N attempts"). -/

/-- Outcome of the reconnect loop: success, or the thrown
    ImapConnectionError carrying the exhausted attempt count. -/
inductive ReconnectResult where
  | reconnected : ReconnectResult
  | connectionError (attempts : Nat) : ReconnectResult
deriving DecidableEq

/-- The attempt loop of reconnect. succeeds i tells whether the i-th attempt
    (0-based) manages to connect and re-authenticate. Returns the backoff
    waits performed, in order, paired with the outcome. -/
def reconnectGo (maxAttempts delay : Nat) (succeeds : Nat → Bool)
    (attempts : Nat) (waits : List Nat) : List Nat × ReconnectResult :=
  if attempts < maxAttempts then
    let w := delay * 2 ^ attempts
    if succeeds attempts then (waits ++ [w], ReconnectResult.reconnected)
    else reconnectGo maxAttempts delay succeeds (attempts + 1) (waits ++ [w])
  else (waits, ReconnectResult.connectionError maxAttempts)
termination_by maxAttempts - attempts

/-- The reconnect loop started from attempt 0 with no waits performed. -/
def reconnectLoop (maxAttempts delay : Nat) (succeeds : Nat → Bool) :
    List Nat × ReconnectResult :=
  reconnectGo maxAttempts delay succeeds 0 []

/-- DEFAULT_OPTIONS.maxReconnectAttempts in src/client.ts. -/
def DEFAULT_maxReconnectAttempts : Nat := 3

/-- DEFAULT_OPTIONS.reconnectDelay in src/client.ts. -/
def DEFAULT_reconnectDelay : Nat := 1000

/-! The sort compiler MakeOrderBy (engine source).

    Source: normalizes the orderBy argument to an array of sort keys; for each
    key object it reads the nulls placement, then walks Object.entries pushing
    an instruction for every entry whose value is asc or desc, remembering the
    value of a seq entry as the fetch order; limited is true when no
    instruction names a field other than seq. A sort key object is modelled by
    its entry list (Object.entries order), the nulls property being the entry
    keyed "nulls". -/

/-- One sort key object, as its property entry list. -/
structure SortKey where
  entries : List (String × String)
deriving DecidableEq

/-- sortKey.nulls or 'last', compared with 'first'. -/
def sortKeyNullsFirst (sk : SortKey) : Bool :=
  ((sk.entries.lookup "nulls").getD "last") == "first"

/-- A pre-processed comparison instruction (fieldName, direction 1 or -1,
    nulls placement). -/
structure OrderByInstruction where
  fieldName : String
  direction : Int
  nullsFirst : Bool
deriving DecidableEq

/-- The instruction pushed for one entry of a sort key: direction 1 for an
    asc value, -1 for a desc value, none otherwise. -/
def instrOfEntry (nullsFirst : Bool) (kv : String × String) :
    Option OrderByInstruction :=
  if kv.2 == "asc" then some ⟨kv.1, 1, nullsFirst⟩
  else if kv.2 == "desc" then some ⟨kv.1, -1, nullsFirst⟩
  else none

/-- Processing of one entry inside the loop body: push the instruction when
    the value is asc or desc, and record the value of a seq-keyed entry as the
    fetch order. -/
def stepEntry (nullsFirst : Bool) (acc : List OrderByInstruction × Option String)
    (kv : String × String) : List OrderByInstruction × Option String :=
  let instrs := match instrOfEntry nullsFirst kv with
    | some i => acc.1 ++ [i]
    | none => acc.1
  let fo := if kv.1 == "seq" then some kv.2 else acc.2
  (instrs, fo)

/-- Processing of one sort key: walk its entries with the nulls placement of
    this key. -/
def stepSortKey (acc : List OrderByInstruction × Option String) (sk : SortKey) :
    List OrderByInstruction × Option String :=
  sk.entries.foldl (stepEntry (sortKeyNullsFirst sk)) acc

/-- The data MakeOrderBy computes: the instruction list (from which the sort
    comparator closure is built), the fetch order for seq (from which the
    sequence comparator is built), and the limited flag. -/
structure OrderByResult where
  instructions : List OrderByInstruction
  fetchOrder : Option String
  limited : Bool
deriving DecidableEq

/-- MakeOrderBy of the engine source. An absent orderBy returns limited =
    false with no comparators; otherwise the keys are folded into
    instructions and limited is the negation of: some instruction names a
    field other than seq. -/
def MakeOrderBy (orderBy : Option (List SortKey)) : OrderByResult :=
  match orderBy with
  | none => ⟨[], none, false⟩
  | some keys =>
    let p := keys.foldl stepSortKey ([], none)
    ⟨p.1, p.2, ! p.1.any (fun i => i.fieldName != "seq")⟩

/-! The FETCH response-line grouper (client fetch source).

    Source: for each response line, a line matching the regular expression
    anchored-star-space-digits-space-FETCH (case-insensitive) and not arriving
    mid-literal closes the current group and starts a new one; if that line
    ends with an open-brace digits close-brace literal marker, literal mode
    starts with the declared size. Any other line is appended to the current
    group; while in literal mode the consumed byte count grows by the line
    length plus 2 for the stripped CRLF, and literal mode ends once the count
    reaches the declared size. -/

/-- One response line, CRLF already stripped by the transport. -/
abbrev Line := List Char

/-- Case-insensitive prefix comparison, as the i flag of the source regex. -/
def startsWithCI : List Char → List Char → Bool
  | [], _ => true
  | _ :: _, [] => false
  | p :: ps, c :: cs => (p.toLower == c.toLower) && startsWithCI ps cs

/-- Test for the anchored pattern star, space, one or more digits, space,
    FETCH (case-insensitive), as the source regex matched against a line. -/
def matchFetchPrefix (l : Line) : Bool :=
  match l with
  | '*' :: ' ' :: rest =>
    let ds := rest.takeWhile Char.isDigit
    !ds.isEmpty && startsWithCI (' ' :: 'F' :: 'E' :: 'T' :: 'C' :: 'H' :: [])
      (rest.drop ds.length)
  | _ => false

/-- Match of the trailing literal marker: open brace, one or more digits,
    close brace, at end of line; returns the declared byte count. -/
def trailingLiteral (l : Line) : Option Nat :=
  match l.reverse with
  | '}' :: rest =>
    let ds := rest.takeWhile Char.isDigit
    if ds.isEmpty then none
    else match rest.drop ds.length with
      | '{' :: _ => some (digitsToNat ds.reverse)
      | _ => none
  | _ => none

/-- The loop state of the grouper: collected groups, the group being built,
    and the literal tracking variables. -/
structure GroupState where
  messageGroups : List (List Line)
  currentGroup : List Line
  inLiteral : Bool
  literalSize : Nat
  literalCollected : Nat
deriving DecidableEq

/-- One iteration of the grouping loop on one response line. -/
def stepGroup (st : GroupState) (line : Line) : GroupState :=
  if matchFetchPrefix line && !st.inLiteral then
    let groups :=
      if st.currentGroup.length > 0 then st.messageGroups ++ [st.currentGroup]
      else st.messageGroups
    match trailingLiteral line with
    | some n => ⟨groups, [line], true, n, 0⟩
    | none => ⟨groups, [line], st.inLiteral, st.literalSize, st.literalCollected⟩
  else
    let current := st.currentGroup ++ [line]
    if st.inLiteral then
      let collected := st.literalCollected + line.length + 2
      ⟨st.messageGroups, current, !(collected ≥ st.literalSize), st.literalSize, collected⟩
    else
      ⟨st.messageGroups, current, st.inLiteral, st.literalSize, st.literalCollected⟩

/-- The whole grouping pass: fold the lines, then append the last group when
    it is nonempty. -/
def groupFetchLines (lines : List Line) : List (List Line) :=
  let final := lines.foldl stepGroup ⟨[], [], false, 0, 0⟩
  if final.currentGroup.length > 0 then final.messageGroups ++ [final.currentGroup]
  else final.messageGroups

/-! The parenthesized-structure parser (parsers/parameters.ts), with the
    whitespace skipper it imports (parsers/util.ts).

    Thrown exceptions are modelled as Except.error carrying the message; the
    JS NaN that parseInt produces on an empty digit string (input open brace
    directly followed by close brace) is modelled by an absent (none) reached
    offset, matching how every NaN comparison is false in the source. -/

/-- A parsed value: a single token string, or a nested list. -/
inductive PV where
  | tok (s : List Char) : PV
  | list (l : List PV) : PV

/-- str.slice(a, b) for 0 le a le b (the only uses here). -/
def strSlice (str : List Char) (a b : Nat) : List Char :=
  (str.drop a).take (b - a)

/-- The number of characters the whitespace loop of SkipWhiteSpace consumes
    from offset: space, tab and carriage return are consumed, and also line
    feed when inline is false. -/
def skipWhiteCount (str : List Char) (offset : Nat) (inline : Bool) : Nat :=
  if h : offset < str.length then
    let c := str.get ⟨offset, h⟩
    if c = ' ' ∨ c = '\t' ∨ c = '\r' ∨ (c = '\n' ∧ inline = false) then
      1 + skipWhiteCount str (offset + 1) inline
    else 0
  else 0
termination_by str.length - offset

/-- SkipWhiteSpace of parsers/util.ts: the offset after the whitespace loop. -/
def SkipWhiteSpace (str : List Char) (offset : Nat) (inline : Bool) : Nat :=
  offset + skipWhiteCount str offset inline

/-- A token with the offset just past it; reached is none when the source
    would hold NaN there. -/
structure TokenResult where
  val : List Char
  reached : Option Nat
deriving DecidableEq

/-- The scan loop of TryString: from i, skip two characters on a backslash,
    stop on a double quote, otherwise advance; returns the stop index (which
    exceeds the length when a trailing backslash escapes past the end). -/
def tryStringLoop (str : List Char) (i : Nat) : Nat :=
  if h : i < str.length then
    if str.get ⟨i, h⟩ = '\\' then tryStringLoop str (i + 2)
    else if str.get ⟨i, h⟩ = '"' then i
    else tryStringLoop str (i + 1)
  else i
termination_by str.length - i

/-- TryString of parsers/parameters.ts: a double-quoted token with backslash
    escapes; unterminated input throws. The token keeps its quotes. -/
def TryString (str : List Char) (offset : Nat) :
    Except String (Option TokenResult) :=
  if str[offset]? ≠ some '"' then Except.ok none
  else
    let i := tryStringLoop str (offset + 1)
    if i = str.length then Except.error "Unterminated string in parenthesis"
    else Except.ok (some ⟨strSlice str offset (i + 1), some (i + 1)⟩)

/-- The digit scan of TryLiteral: stops at a close brace returning its index
    (or the length when the input ends first, which the caller then rejects),
    and fails on any other non-digit character. -/
def literalDigitScan (str : List Char) (i : Nat) : Option Nat :=
  if h : i < str.length then
    let c := str.get ⟨i, h⟩
    if c = '}' then some i
    else if c.isDigit then literalDigitScan str (i + 1)
    else none
  else some i
termination_by str.length - i

/-- TryLiteral of parsers/parameters.ts: open brace, decimal byte count,
    close brace, optional carriage return, line feed, then exactly that many
    bytes; fewer bytes than declared throws. The literal is re-emitted wrapped
    in double quotes. An empty digit string gives parseInt NaN: the length
    check is then false and the value slice is empty, with a NaN (none)
    reached offset. -/
def TryLiteral (str : List Char) (offset : Nat) :
    Except String (Option TokenResult) :=
  if str[offset]? ≠ some '{' then Except.ok none
  else
    let s := offset + 1
    match literalDigitScan str s with
    | none => Except.ok none
    | some j =>
      if j < str.length then
        let digits := strSlice str s j
        let o1 := j + 1
        let o2 := if str[o1]? = some '\r' then o1 + 1 else o1
        if str[o2]? ≠ some '\n' then Except.ok none
        else
          let o3 := o2 + 1
          if digits.isEmpty then
            Except.ok (some ⟨'"' :: '"' :: [], none⟩)
          else
            let bytes := digitsToNat digits
            let e := o3 + bytes
            if e > str.length then
              Except.error "Not enough bytes present for string literal"
            else
              Except.ok (some ⟨'"' :: (strSlice str o3 e ++ ['"']), some e⟩)
      else Except.ok none

/-- The characters a bare keyword stops at. -/
def BREAK_ON : List Char := ['(', ')', '{', ' ', '\t', '\r', '\n']

/-- The scan loop of TryKeyword: advance to the next structural or whitespace
    character. -/
def keywordScan (str : List Char) (i : Nat) : Nat :=
  if h : i < str.length then
    if BREAK_ON.contains (str.get ⟨i, h⟩) then i
    else keywordScan str (i + 1)
  else i
termination_by str.length - i

/-- The whitespace set of the JS String.prototype.trim call on a keyword
    (restricted to the ASCII space characters). -/
def isJsSpace (c : Char) : Bool :=
  c = ' ' ∨ c = '\t' ∨ c = '\n' ∨ c = '\r' ∨ c = '\x0b' ∨ c = '\x0c'

/-- s.trim() on a keyword slice. -/
def jsTrim (l : List Char) : List Char :=
  ((l.dropWhile isJsSpace).reverse.dropWhile isJsSpace).reverse

/-- TryKeyword of parsers/parameters.ts: a run of characters up to the next
    structural or whitespace character, trimmed; empty gives no token. -/
def TryKeyword (str : List Char) (offset : Nat) : Option TokenResult :=
  let i := keywordScan str offset
  let val := jsTrim (strSlice str offset i)
  if val.length < 1 then none
  else some ⟨val, some i⟩

/-- TryAtom of parsers/parameters.ts: TryString, else TryLiteral, else
    TryKeyword; the first two may throw. -/
def TryAtom (str : List Char) (offset : Nat) :
    Except String (Option TokenResult) := do
  match ← TryString str offset with
  | some t => pure (some t)
  | none =>
    match ← TryLiteral str offset with
    | some t => pure (some t)
    | none => pure (TryKeyword str offset)

/-- A parsed value plus the offset just past it (none models NaN). -/
structure ParseResult where
  val : PV
  reached : Option Nat

/-- The list loop of ParseParenthesized. The nonempty level stack of the
    source is passed as its head (top, the innermost open list, the tail()
    of the source) and its tail (rest, the outer levels, outermost last); the
    source pushes each branch into its parent on the opening parenthesis and
    mutates it in place, modelled here by appending the finished branch to
    its parent on the closing parenthesis. Exhausting the input inside the
    loop (also via a NaN offset from a malformed literal) throws the
    unbalanced-parenthesis error of the source epilogue. -/
def parseLoop (str : List Char) (offset : Nat) (top : List PV)
    (rest : List (List PV)) : Except String (Option ParseResult) :=
  if _hoff : offset < str.length then
    let o2 := SkipWhiteSpace str offset true
    match str[o2]? with
    | some '(' => parseLoop str (o2 + 1) [] (top :: rest)
    | some ')' =>
      match rest with
      | [] => Except.ok (some ⟨PV.list top, some (o2 + 1)⟩)
      | parent :: rest2 => parseLoop str (o2 + 1) (parent ++ [PV.list top]) rest2
    | _ =>
      match TryAtom str o2 with
      | Except.error e => Except.error e
      | Except.ok none => Except.error "Unexpected token"
      | Except.ok (some t) =>
        match t.reached with
        | some r =>
          if _hadv : offset < r then parseLoop str r (top ++ [PV.tok t.val]) rest
          else
            -- Unreachable: every token TryAtom yields ends strictly past the
            -- offset it was read at.
            Except.error "Parenthesis are unbalanced"
        | none => Except.error "Parenthesis are unbalanced"
  else Except.error "Parenthesis are unbalanced"
termination_by str.length - offset
decreasing_by
  · unfold SkipWhiteSpace
    omega
  · unfold SkipWhiteSpace
    omega
  · omega

/-- ParseParenthesized of parsers/parameters.ts: skip whitespace (newlines
    included), then either a single token or a parenthesized list parsed by
    the loop. -/
def ParseParenthesized (str : List Char) (offset0 : Nat) :
    Except String (Option ParseResult) :=
  let offset := SkipWhiteSpace str offset0 false
  if str.length ≤ offset then Except.ok none
  else if str[offset]? ≠ some '(' then
    match TryAtom str offset with
    | Except.error e => Except.error e
    | Except.ok none => Except.ok none
    | Except.ok (some t) => Except.ok (some ⟨PV.tok t.val, t.reached⟩)
  else parseLoop str (offset + 1) [] []

/-- Plain list prefix test, used by the substring helper below. -/
def listStartsWith : List Char → List Char → Bool
  | [], _ => true
  | _ :: _, [] => false
  | a :: as, b :: bs => a == b && listStartsWith as bs

/-- Substring containment, as String.prototype.includes. -/
def strIncludes (needle : List Char) : List Char → Bool
  | [] => listStartsWith needle []
  | c :: cs => listStartsWith needle (c :: cs) || strIncludes needle cs

/-! Envelope decoding (parsers/fetch.ts ParseEnvelope, with the parameter
    helpers of parsers/parameters.ts). -/

/-- ParameterString of parsers/parameters.ts, on a possibly-undefined value:
    undefined, lists, the NIL atom and the empty string (falsy) give
    undefined; a double-quoted token is unquoted; anything else is returned
    as is. -/
def ParameterString : Option PV → Option (List Char)
  | none => none
  | some (PV.list _) => none
  | some (PV.tok v) =>
    if v.isEmpty then none
    else if v = "NIL".toList then none
    else if v.head? = some '"' ∧ v.getLast? = some '"' then some ((v.drop 1).dropLast)
    else some v

/-- GetParameterListStr of parsers/parameters.ts: undefined unless the value
    is a list, else ParameterString of its index-th element. -/
def GetParameterListStr : PV → Nat → Option (List Char)
  | PV.tok _, _ => none
  | PV.list l, index => ParameterString l[index]?

/-- The ImapAddress record (types); all four fields may be undefined. -/
structure ImapAddress where
  name : Option (List Char)
  sourceRoute : Option (List Char)
  mailbox : Option (List Char)
  host : Option (List Char)
deriving DecidableEq

/-- ParseImapAddress of parsers/parameters.ts: a non-list yields the
    all-undefined address; a list yields its first four parameter strings. -/
def ParseImapAddress (value : PV) : ImapAddress :=
  match value with
  | PV.tok _ => ⟨none, none, none, none⟩
  | PV.list l =>
    ⟨GetParameterListStr (PV.list l) 0, GetParameterListStr (PV.list l) 1,
     GetParameterListStr (PV.list l) 2, GetParameterListStr (PV.list l) 3⟩

/-- ParseImapAddressList of parsers/parameters.ts on a possibly-undefined
    value: the empty list unless the value is a list, else the element-wise
    addresses. -/
def ParseImapAddressList : Option PV → List ImapAddress
  | some (PV.list l) => l.map ParseImapAddress
  | _ => []

/-- The decoded envelope (types ImapEnvelope). The source stores the date as
    a JS Date built with new Date(text); the raw text is kept here since that
    conversion is locale dependent. -/
structure ImapEnvelope where
  date : Option (List Char)
  subject : List Char
  «from» : List ImapAddress
  sender : List ImapAddress
  replyTo : List ImapAddress
  «to» : List ImapAddress
  cc : List ImapAddress
  bcc : List ImapAddress
  inReplyTo : Option (List Char)
  messageId : Option (List Char)
deriving DecidableEq

/-- ParseEnvelope of parsers/fetch.ts: the fixed positional decode
    date subject from sender replyTo to cc bcc inReplyTo messageId. The
    subject falls back to the empty string; the date is undefined when its
    parameter string is undefined or empty (the empty string is falsy in the
    conditional expression of the source). -/
def ParseEnvelope (value : List PV) : ImapEnvelope :=
  let date := GetParameterListStr (PV.list value) 0
  ⟨(match date with
    | some d => if d.isEmpty then none else some d
    | none => none),
   (GetParameterListStr (PV.list value) 1).getD [],
   ParseImapAddressList value[2]?,
   ParseImapAddressList value[3]?,
   ParseImapAddressList value[4]?,
   ParseImapAddressList value[5]?,
   ParseImapAddressList value[6]?,
   ParseImapAddressList value[7]?,
   GetParameterListStr (PV.list value) 8,
   GetParameterListStr (PV.list value) 9⟩

/-! The search query compiler (engine MakeWhereQuery): the received-date and
    envelope-date term fragments, and the flag term fragment with
    AddSafeFlag. Dates are epoch milliseconds. -/

/-- The range shape of a WhereValue of dates (the in, notIn, gte, lte, gt,
    lt, eq optional fields of the source type, in declaration order). -/
structure DateRule where
  inSet : Option (List Int)
  notIn : Option (List Int)
  gte : Option Int
  lte : Option Int
  gt : Option Int
  lt : Option Int
  eq : Option Int
deriving DecidableEq

/-- A WhereValue of dates: a bare Date, or a rule object. -/
inductive WhereValueDate where
  | value (d : Int) : WhereValueDate
  | range (r : DateRule) : WhereValueDate
deriving DecidableEq

/-- One day in milliseconds (the FULL_DAY constant of the engine source). -/
def FULL_DAY : Int := 24 * 60 * 60 * 1000

/-- The receivedDate term of MakeWhereQuery: the SEARCH keyword emitted and
    the epoch handed to DateShort (the source appends space, keyword, space,
    DateShort(epoch) to the query; DateShort renders the epoch as DD-Mon-YYYY
    in the local timezone, so the term is modelled at the keyword-and-epoch
    level). A Date object is always truthy, so each branch tests presence. -/
def MakeWhereQueryReceivedDate : Option WhereValueDate → Option (String × Int)
  | none => none
  | some (WhereValueDate.value d) => some ("ON", d)
  | some (WhereValueDate.range r) =>
    match r.gt with
    | some d => some ("SINCE", d)
    | none =>
      match r.gte with
      | some d => some ("SINCE", d - FULL_DAY)
      | none =>
        match r.lt with
        | some d => some ("BEFORE", d)
        | none =>
          match r.lte with
          | some d => some ("SINCE", d + FULL_DAY)
          | none => none

/-- The envelope date term of MakeWhereQuery, same modelling: every range
    branch of the source emits SENTSINCE. -/
def MakeWhereQueryEnvelopeDate : Option WhereValueDate → Option (String × Int)
  | none => none
  | some (WhereValueDate.value d) => some ("ON", d)
  | some (WhereValueDate.range r) =>
    match r.gt with
    | some d => some ("SENTSINCE", d)
    | none =>
      match r.gte with
      | some d => some ("SENTSINCE", d - FULL_DAY)
      | none =>
        match r.lt with
        | some d => some ("SENTSINCE", d)
        | none =>
          match r.lte with
          | some d => some ("SENTSINCE", d + FULL_DAY)
          | none => none

/-- The WhereScalar shape of the flags criterion. -/
structure FlagsWhere where
  has : Option String
  hasEvery : Option (List String)
  hasSome : Option (List String)
  hasNone : Option (List String)
deriving DecidableEq

/-- String.prototype.toUpperCase, at the ASCII coverage the flag inputs
    use. -/
def toUpperJs (s : String) : String :=
  ⟨s.data.map Char.toUpper⟩

/-- Membership in the safe flag character class (upper-case letters, dollar,
    plus, minus, underscore, dot). -/
def isSafeFlagChar (c : Char) : Bool :=
  ('A' ≤ c && c ≤ 'Z') || c == '$' || c == '+' || c == '-' || c == '_' || c == '.'

/-- The line terminators of a JS multiline regular expression (line feed,
    carriage return, U+2028 and U+2029). -/
def isRegexLineBreak (c : Char) : Bool :=
  c == '\n' || c == '\r' || c == Char.ofNat 0x2028 || c == Char.ofNat 0x2029

/-- Splits a character list at every regular-expression line terminator. -/
def splitRegexLines : List Char → List (List Char)
  | [] => [[]]
  | c :: cs =>
    if isRegexLineBreak c then [] :: splitRegexLines cs
    else
      match splitRegexLines cs with
      | [] => [[c]]
      | h :: t => (c :: h) :: t

/-- SAFE_FLAG_PATTERN.test of the engine source. The pattern anchors a
    nonempty run of safe characters, but carries the multiline flag, so the
    test passes as soon as any one line of the input matches. -/
def safeFlagTest (s : String) : Bool :=
  (splitRegexLines s.toList).any (fun line => !line.isEmpty && line.all isSafeFlagChar)

/-- AddSafeFlag of the engine source: upper-case the flag, drop it (with a
    diagnostic) unless the pattern test passes, else add it to the set
    (insertion order, no duplicates). -/
def AddSafeFlag (into : List String) (raw : String) : List String :=
  let up := toUpperJs raw
  if !safeFlagTest up then into
  else if into.contains up then into
  else into ++ [up]

/-- The flags fragment of MakeWhereQuery: has and hasEvery feed the inclusive
    set, hasNone the exclusive set (hasSome is not expressible server-side
    and is ignored by the source); each inclusive flag is appended as a bare
    term and each exclusive flag as a NOT term, every term preceded by one
    space. The has string is checked for truthiness (the empty string is
    falsy); array fields are always truthy when present. -/
def MakeWhereQueryFlags (flags : FlagsWhere) : String :=
  let inclusive : List String :=
    match flags.has with
    | some h => if h != "" then AddSafeFlag [] h else []
    | none => []
  let inclusive :=
    match flags.hasEvery with
    | some l => l.foldl AddSafeFlag inclusive
    | none => inclusive
  let exclusive : List String :=
    match flags.hasNone with
    | some l => l.foldl AddSafeFlag []
    | none => []
  let q := inclusive.foldl (fun q f => q ++ " " ++ f) ""
  exclusive.foldl (fun q f => q ++ " NOT " ++ f) q

/-! The client-side matcher (engine MatchesWhere and its helpers). The
    matcher works on decoded messages, whose text fields are modelled as
    String here. The source MatchWhereValue is one dynamically-dispatched
    function; it is embedded as one copy per runtime type branch. -/

/-- The range shape of a WhereValue of numbers (field order as in the source
    type). -/
structure NumRule where
  inSet : Option (List Nat)
  notIn : Option (List Nat)
  gte : Option Nat
  lte : Option Nat
  gt : Option Nat
  lt : Option Nat
  eq : Option Nat
deriving DecidableEq

/-- A WhereValue of numbers: a bare number, or a rule object. -/
inductive WhereValueNum where
  | value (n : Nat) : WhereValueNum
  | range (r : NumRule) : WhereValueNum
deriving DecidableEq

/-- The number branch of MatchWhereValue. An absent criterion always passes;
    an absent field value always fails. The early returns of the source are
    kept in order; a numeric bound of 0 is falsy in JS, so such a bound is
    skipped. The gte, gt, lte, lt comparisons are exactly those of the
    source. -/
def MatchWhereValueNum (w : Option WhereValueNum) (val : Option Nat) : Bool :=
  match w with
  | none => true
  | some w =>
    match val with
    | none => false
    | some v =>
      match w with
      | WhereValueNum.value n => n == v
      | WhereValueNum.range r =>
        if (match r.notIn with | some l => l.contains v | none => false) then false
        else if (match r.inSet with | some l => !l.contains v | none => false) then false
        else if (match r.gte with | some g => g != 0 && decide (g < v) | none => false) then false
        else if (match r.gt with | some g => g != 0 && decide (g ≤ v) | none => false) then false
        else if (match r.lte with | some g => g != 0 && decide (g > v) | none => false) then false
        else if (match r.lt with | some g => g != 0 && decide (g ≥ v) | none => false) then false
        else if (match r.eq with | some g => g != 0 && g != v | none => false) then false
        else true

/-- The Date branch of MatchWhereValue. Date objects are always truthy, so a
    bound applies whenever present; rule.in and rule.notIn only emit a
    warning for dates. A bare Date rule compares with JS reference equality
    in the source; epoch equality is the closest value-level reading. -/
def MatchWhereValueDate (w : Option WhereValueDate) (val : Option Int) : Bool :=
  match w with
  | none => true
  | some w =>
    match val with
    | none => false
    | some v =>
      match w with
      | WhereValueDate.value d => d == v
      | WhereValueDate.range r =>
        if (match r.gte with | some g => decide (g < v) | none => false) then false
        else if (match r.gt with | some g => decide (g ≤ v) | none => false) then false
        else if (match r.lte with | some g => decide (g > v) | none => false) then false
        else if (match r.lt with | some g => decide (g ≥ v) | none => false) then false
        else if (match r.eq with | some g => g != v | none => false) then false
        else true

/-- The rule shape of a WhereText (contains, startsWith, endsWith, equals,
    mode). -/
structure TextRule where
  contains : Option String
  startsWith : Option String
  endsWith : Option String
  equalsStr : Option String
  mode : Option String
deriving DecidableEq

/-- A WhereText: a bare string, or a rule object. -/
inductive WhereText where
  | strT (s : String) : WhereText
  | objT (o : TextRule) : WhereText
deriving DecidableEq

/-- MatchWhereText of the engine source. Insensitive mode lower-cases only
    the message text, not the pattern; the endsWith criterion is checked a
    second time as strict equality by the source, and both checks are kept;
    the equals field is never read. The empty string is falsy for each
    criterion field. -/
def MatchWhereText (w : Option WhereText) (txt : Option String) : Bool :=
  match w with
  | none => true
  | some w =>
    match txt with
    | none => false
    | some txt0 =>
      match w with
      | WhereText.strT s => txt0 == s
      | WhereText.objT o =>
        let txt := if o.mode == some "insensitive" then txt0.toLower else txt0
        if (match o.startsWith with
          | some p => p != "" && !(txt.startsWith p)
          | none => false) then false
        else if (match o.endsWith with
          | some p => p != "" && !(txt.endsWith p)
          | none => false) then false
        else if (match o.contains with
          | some p => p != "" && !(strIncludes p.toList txt.toList)
          | none => false) then false
        else if (match o.endsWith with
          | some p => p != "" && txt != p
          | none => false) then false
        else true

/-- The ImapAddress record at the String level used by the matcher. -/
structure MAddress where
  name : Option String
  sourceRoute : Option String
  mailbox : Option String
  host : Option String
deriving DecidableEq

/-- An address criterion: a mailbox-at-host string, or a partial address. -/
inductive AddressCriteria where
  | strC (s : String) : AddressCriteria
  | objC (a : MAddress) : AddressCriteria
deriving DecidableEq

/-- AddressComparator of the engine source. The string form compares against
    a template literal that renders an absent mailbox or host as the text
    undefined; the object form checks each truthy (nonempty) field for
    strict equality, in source order. -/
def AddressComparator (address : MAddress) (rule : AddressCriteria) : Bool :=
  match rule with
  | AddressCriteria.strC s =>
    ((address.mailbox.getD "undefined") ++ "@" ++ (address.host.getD "undefined")) == s
  | AddressCriteria.objC r =>
    if (match r.sourceRoute with
      | some x => x != "" && address.sourceRoute != some x
      | none => false) then false
    else if (match r.mailbox with
      | some x => x != "" && address.mailbox != some x
      | none => false) then false
    else if (match r.name with
      | some x => x != "" && address.name != some x
      | none => false) then false
    else if (match r.host with
      | some x => x != "" && address.host != some x
      | none => false) then false
    else true

/-- The WhereScalar shape of an address criterion field. -/
structure AddrScalar where
  has : Option AddressCriteria
  hasEvery : Option (List AddressCriteria)
  hasSome : Option (List AddressCriteria)
  hasNone : Option (List AddressCriteria)
deriving DecidableEq

/-- JS truthiness of an address criterion: the empty string is falsy, any
    object is truthy. -/
def addrCriteriaTruthy : AddressCriteria → Bool
  | AddressCriteria.strC s => s != ""
  | AddressCriteria.objC _ => true

/-- MatchWhereScalar of the engine source, at its only call site type
    (address lists compared with AddressComparator): has, hasEvery, hasNone,
    hasSome in source order. -/
def MatchWhereScalar (w : Option AddrScalar) (value : List MAddress) : Bool :=
  match w with
  | none => true
  | some w =>
    if (match w.has with
      | some h => addrCriteriaTruthy h && !(value.any (fun x => AddressComparator x h))
      | none => false) then false
    else if (match w.hasEvery with
      | some l => l.any (fun r => !(value.any (fun x => AddressComparator x r)))
      | none => false) then false
    else if (match w.hasNone with
      | some l => l.any (fun r => value.any (fun x => AddressComparator x r))
      | none => false) then false
    else if (match w.hasSome with
      | some l => !(l.any (fun r => value.any (fun x => AddressComparator x r)))
      | none => false) then false
    else true

/-- The decoded envelope at the String level used by the matcher (dates as
    epoch milliseconds). -/
structure MatchEnvelope where
  date : Option Int
  subject : String
  «from» : List MAddress
  sender : List MAddress
  replyTo : List MAddress
  «to» : List MAddress
  cc : List MAddress
  bcc : List MAddress
  inReplyTo : Option String
  messageId : Option String
deriving DecidableEq

/-- The decoded message fields the matcher reads (types ImapMessage). -/
structure ImapMessage where
  seq : Nat
  uid : Option Nat
  size : Nat
  receivedDate : Option Int
  flags : List String
  envelope : Option MatchEnvelope
deriving DecidableEq

/-- The envelope sub-criteria of a message filter. -/
structure EnvelopeWhere where
  date : Option WhereValueDate
  subject : Option WhereText
  «from» : Option AddrScalar
  sender : Option AddrScalar
  replyTo : Option AddrScalar
  «to» : Option AddrScalar
  cc : Option AddrScalar
  bcc : Option AddrScalar
  inReplyTo : Option WhereText
  messageId : Option WhereText
deriving DecidableEq

/-- A message filter (the ImapMessageWhere type of the engine source). -/
structure ImapMessageWhere where
  seq : Option WhereValueNum
  uid : Option WhereValueNum
  size : Option WhereValueNum
  receivedDate : Option WhereValueDate
  flags : Option FlagsWhere
  envelope : Option EnvelopeWhere
deriving DecidableEq

/-- MatchesWhere of the engine source, transliterated check by check. The
    uid and size criteria are evaluated against mail.seq, exactly as the
    source does. The flags block tests has (truthy when nonempty), hasEvery,
    hasNone and hasSome against the flag set, and the envelope block runs the
    ten envelope checks in source order, failing when the criterion is
    present but the message has no envelope. -/
def MatchesWhere (w : ImapMessageWhere) (mail : ImapMessage) : Bool :=
  if !MatchWhereValueNum w.seq (some mail.seq) then false
  else if !MatchWhereValueNum w.uid (some mail.seq) then false
  else if !MatchWhereValueNum w.size (some mail.seq) then false
  else if !MatchWhereValueDate w.receivedDate mail.receivedDate then false
  else if (match w.flags with
    | some f =>
      (match f.has with
        | some h => h != "" && !(mail.flags.contains h)
        | none => false)
      || (match f.hasEvery with
        | some l => l.any (fun x => !(mail.flags.contains x))
        | none => false)
      || (match f.hasNone with
        | some l => l.any (fun x => mail.flags.contains x)
        | none => false)
      || (match f.hasSome with
        | some l => !(l.any (fun x => mail.flags.contains x))
        | none => false)
    | none => false) then false
  else
    match w.envelope with
    | none => true
    | some ew =>
      match mail.envelope with
      | none => false
      | some env =>
        if !MatchWhereValueDate ew.date env.date then false
        else if !MatchWhereText ew.subject (some env.subject) then false
        else if !MatchWhereScalar ew.«from» env.«from» then false
        else if !MatchWhereScalar ew.sender env.sender then false
        else if !MatchWhereScalar ew.replyTo env.replyTo then false
        else if !MatchWhereScalar ew.«to» env.«to» then false
        else if !MatchWhereScalar ew.cc env.cc then false
        else if !MatchWhereScalar ew.bcc env.bcc then false
        else if !MatchWhereText ew.inReplyTo env.inReplyTo then false
        else if !MatchWhereText ew.messageId env.messageId then false
        else true

/-! The command dispatch read loop (src/client.ts executeCommand): write the
    tagged command, then push each line read from the connection and stop at
    the first line that starts with the tag; that completion line fails the
    command with ImapCommandError(command, line) unless it contains OK
    anywhere, else the accumulated lines (completion line included) are
    returned. -/

/-- Outcome of the read loop: the resolved response lines, the thrown
    ImapCommandError with its command and raw completion line, or pending
    when the modelled line stream ends before any tagged line (the source
    would still be awaiting readLine). -/
inductive ExecOutcome where
  | completed (responseLines : List String) : ExecOutcome
  | commandError (command : String) (response : String) : ExecOutcome
  | pending : ExecOutcome
deriving DecidableEq

/-- line.includes of the OK marker test. -/
def containsOK (line : String) : Bool :=
  strIncludes "OK".toList line.toList

/-- The read loop with its accumulated responseLines. -/
def executeCommandLoop (tag command : String) (acc : List String) :
    List String → ExecOutcome
  | [] => ExecOutcome.pending
  | line :: stream =>
    let acc2 := acc ++ [line]
    if listStartsWith tag.data line.data then
      if !containsOK line then ExecOutcome.commandError command line
      else ExecOutcome.completed acc2
    else executeCommandLoop tag command acc2 stream

/-- The read loop of executeCommand over a given stream of response lines. -/
def executeCommand (tag command : String) (stream : List String) : ExecOutcome :=
  executeCommandLoop tag command [] stream

/-! Lemmas about the parenthesized-structure parser. -/

theorem getElem?_at_len (pre : List Char) (c : Char) (post : List Char) (n : Nat)
    (h : n = pre.length) : (pre ++ c :: post)[n]? = some c := by
  subst h
  induction pre with
  | nil => simp
  | cons a as ih => simpa using ih

theorem get_of_getElem? (str : List Char) (n : Nat) (c : Char)
    (hc : str[n]? = some c) (h : n < str.length) : str.get ⟨n, h⟩ = c := by
  rw [List.getElem?_eq_getElem h] at hc
  simpa using hc

theorem lt_of_getElem? (str : List Char) (n : Nat) (c : Char)
    (hc : str[n]? = some c) : n < str.length := by
  rcases List.getElem?_eq_some_iff.1 hc with ⟨h, _⟩
  exact h

theorem skipWhiteCount_zero (str : List Char) (off : Nat) (inline : Bool)
    (c : Char) (hc : str[off]? = some c)
    (h1 : ¬(c = ' ' ∨ c = '\t' ∨ c = '\r' ∨ (c = '\n' ∧ inline = false))) :
    skipWhiteCount str off inline = 0 := by
  have hlt := lt_of_getElem? str off c hc
  rw [skipWhiteCount, dif_pos hlt]
  simp only [get_of_getElem? str off c hc hlt]
  rw [if_neg h1]

theorem skipWhiteSpace_fix (str : List Char) (off : Nat) (inline : Bool)
    (c : Char) (hc : str[off]? = some c)
    (h1 : ¬(c = ' ' ∨ c = '\t' ∨ c = '\r' ∨ (c = '\n' ∧ inline = false))) :
    SkipWhiteSpace str off inline = off := by
  rw [SkipWhiteSpace, skipWhiteCount_zero str off inline c hc h1]
  omega

theorem literalDigitScan_run (pre digits rest : List Char)
    (hd : ∀ c ∈ digits, c.isDigit = true) :
    literalDigitScan (pre ++ (digits ++ '}' :: rest)) pre.length =
      some (pre.length + digits.length) := by
  induction digits generalizing pre with
  | nil =>
    have hget : (pre ++ ([] ++ '}' :: rest))[pre.length]? = some '}' := by
      simpa using getElem?_at_len pre '}' rest pre.length rfl
    have hlt := lt_of_getElem? _ _ _ hget
    rw [literalDigitScan, dif_pos hlt]
    simp only [get_of_getElem? _ _ _ hget hlt]
    simp
  | cons d ds ih =>
    have hget : (pre ++ ((d :: ds) ++ '}' :: rest))[pre.length]? = some d := by
      have := getElem?_at_len pre d (ds ++ '}' :: rest) pre.length rfl
      simpa using this
    have hlt := lt_of_getElem? _ _ _ hget
    have hdig : d.isDigit = true := hd d (by simp)
    have hne : ¬ (d = '}') := by
      intro he
      rw [he] at hdig
      simp [Char.isDigit] at hdig
    rw [literalDigitScan, dif_pos hlt]
    simp only [get_of_getElem? _ _ _ hget hlt]
    rw [if_neg hne, if_pos hdig]
    have hrec := ih (pre ++ [d]) (fun c hcmem => hd c (by simp [hcmem]))
    have hlen : (pre ++ [d]).length = pre.length + 1 := by simp
    rw [List.append_assoc, List.singleton_append] at hrec
    rw [hlen] at hrec
    rw [List.cons_append, hrec]
    congr 1
    simp only [List.length_cons]
    omega

theorem strSlice_mid (pre mid post : List Char) (a b : Nat)
    (ha : a = pre.length) (hb : b = pre.length + mid.length) :
    strSlice (pre ++ mid ++ post) a b = mid := by
  subst ha
  subst hb
  rw [strSlice, List.append_assoc, List.drop_left]
  simp [List.take_left]

theorem TryLiteral_insufficient_crlf (pre digits rest : List Char)
    (hne : digits ≠ []) (hd : ∀ c ∈ digits, c.isDigit = true)
    (hlen : rest.length < digitsToNat digits) :
    TryLiteral (pre ++ '{' :: (digits ++ '}' :: '\r' :: '\n' :: rest)) pre.length =
      Except.error "Not enough bytes present for string literal" := by
  have h0 : (pre ++ '{' :: (digits ++ '}' :: '\r' :: '\n' :: rest))[pre.length]? =
      some '{' := getElem?_at_len pre '{' _ _ rfl
  have hscan := literalDigitScan_run (pre ++ ['{']) digits ('\r' :: '\n' :: rest) hd
  simp only [List.append_assoc, List.singleton_append, List.length_append,
    List.length_singleton] at hscan
  have hj : pre.length + 1 + digits.length <
      (pre ++ '{' :: (digits ++ '}' :: '\r' :: '\n' :: rest)).length := by
    simp only [List.length_append, List.length_cons]
    omega
  have hsl : strSlice (pre ++ '{' :: (digits ++ '}' :: '\r' :: '\n' :: rest))
      (pre.length + 1) (pre.length + 1 + digits.length) = digits := by
    have := strSlice_mid (pre ++ ['{']) digits ('}' :: '\r' :: '\n' :: rest)
      (pre.length + 1) (pre.length + 1 + digits.length) (by simp) (by simp)
    simpa using this
  have hr : (pre ++ '{' :: (digits ++ '}' :: '\r' :: '\n' :: rest))[pre.length + 1 +
      digits.length + 1]? = some '\r' := by
    have := getElem?_at_len (pre ++ '{' :: (digits ++ ['}'])) '\r' ('\n' :: rest)
      (pre.length + 1 + digits.length + 1) (by simp; omega)
    simpa using this
  have hn : (pre ++ '{' :: (digits ++ '}' :: '\r' :: '\n' :: rest))[pre.length + 1 +
      digits.length + 1 + 1]? = some '\n' := by
    have := getElem?_at_len (pre ++ '{' :: (digits ++ ['}', '\r'])) '\n' rest
      (pre.length + 1 + digits.length + 1 + 1) (by simp; omega)
    simpa using this
  have hie : digits.isEmpty = false := by
    cases digits with
    | nil => exact absurd rfl hne
    | cons a l => rfl
  have hover : pre.length + 1 + digits.length + 1 + 1 + 1 + digitsToNat digits >
      (pre ++ '{' :: (digits ++ '}' :: '\r' :: '\n' :: rest)).length := by
    simp only [List.length_append, List.length_cons]
    omega
  rw [TryLiteral, h0]
  simp only [ne_eq, not_true_eq_false, if_false, reduceIte, hscan, hj, if_true,
    hsl, hr, hn, hie, Bool.false_eq_true, hover, not_true, ite_true, ite_false,
    gt_iff_lt, not_false_eq_true]

theorem TryLiteral_insufficient_lf (pre digits rest : List Char)
    (hne : digits ≠ []) (hd : ∀ c ∈ digits, c.isDigit = true)
    (hlen : rest.length < digitsToNat digits) :
    TryLiteral (pre ++ '{' :: (digits ++ '}' :: '\n' :: rest)) pre.length =
      Except.error "Not enough bytes present for string literal" := by
  have h0 : (pre ++ '{' :: (digits ++ '}' :: '\n' :: rest))[pre.length]? =
      some '{' := getElem?_at_len pre '{' _ _ rfl
  have hscan := literalDigitScan_run (pre ++ ['{']) digits ('\n' :: rest) hd
  simp only [List.append_assoc, List.singleton_append, List.length_append,
    List.length_singleton] at hscan
  have hj : pre.length + 1 + digits.length <
      (pre ++ '{' :: (digits ++ '}' :: '\n' :: rest)).length := by
    simp only [List.length_append, List.length_cons]
    omega
  have hsl : strSlice (pre ++ '{' :: (digits ++ '}' :: '\n' :: rest))
      (pre.length + 1) (pre.length + 1 + digits.length) = digits := by
    have := strSlice_mid (pre ++ ['{']) digits ('}' :: '\n' :: rest)
      (pre.length + 1) (pre.length + 1 + digits.length) (by simp) (by simp)
    simpa using this
  have hn : (pre ++ '{' :: (digits ++ '}' :: '\n' :: rest))[pre.length + 1 +
      digits.length + 1]? = some '\n' := by
    have := getElem?_at_len (pre ++ '{' :: (digits ++ ['}'])) '\n' rest
      (pre.length + 1 + digits.length + 1) (by simp; omega)
    simpa using this
  have hie : digits.isEmpty = false := by
    cases digits with
    | nil => exact absurd rfl hne
    | cons a l => rfl
  have hover : pre.length + 1 + digits.length + 1 + 1 + digitsToNat digits >
      (pre ++ '{' :: (digits ++ '}' :: '\n' :: rest)).length := by
    simp only [List.length_append, List.length_cons]
    omega
  rw [TryLiteral, h0]
  simp only [ne_eq, not_true_eq_false, if_false, reduceIte, hscan, hj, if_true,
    hsl, hn, hie, Bool.false_eq_true, hover, not_true, ite_true, ite_false,
    gt_iff_lt, not_false_eq_true, Option.some.injEq, reduceCtorEq,
    (show ¬('\n' = '\r') by decide)]

theorem TryLiteral_ok_reached_le (str : List Char) (off : Nat) (t : TokenResult)
    (e : Nat) (h : TryLiteral str off = Except.ok (some t))
    (hr : t.reached = some e) : e ≤ str.length := by
  rw [TryLiteral] at h
  simp only [ne_eq] at h
  repeat' split at h
  all_goals simp at h
  all_goals subst h
  all_goals simp at hr
  all_goals omega

theorem TryString_none (str : List Char) (off : Nat) (c : Char)
    (hc : str[off]? = some c) (h : ¬ (c = '"')) :
    TryString str off = Except.ok none := by
  rw [TryString, if_pos]
  rw [hc]
  simp [h]

theorem TryAtom_literal_error (str : List Char) (off : Nat) (e : String)
    (hs : TryString str off = Except.ok none)
    (hl : TryLiteral str off = Except.error e) :
    TryAtom str off = Except.error e := by
  rw [TryAtom]
  simp only [hs, hl, bind, Except.bind]

theorem ParseParenthesized_brace_start (str : List Char)
    (h0 : str[0]? = some '{') (e : String)
    (hl : TryLiteral str 0 = Except.error e) :
    ParseParenthesized str 0 = Except.error e := by
  have hnwsp : SkipWhiteSpace str 0 false = 0 :=
    skipWhiteSpace_fix str 0 false '{' h0 (by simp)
  have hlen : ¬ str.length ≤ 0 := by
    have := lt_of_getElem? str 0 '{' h0
    omega
  have ha : TryAtom str 0 = Except.error e :=
    TryAtom_literal_error str 0 e (TryString_none str 0 '{' h0 (by simp)) hl
  rw [ParseParenthesized]
  simp only [hnwsp, hlen, if_false, h0, ha, ne_eq, Option.some.injEq,
    reduceCtorEq, not_false_eq_true, if_true, ite_false, ite_true,
    reduceIte]
  rw [if_pos (by decide : ¬ ('{' = '('))]

theorem ParseParenthesized_paren_brace (str : List Char)
    (h0 : str[0]? = some '(') (h1 : str[1]? = some '{') (e : String)
    (hl : TryLiteral str 1 = Except.error e) :
    ParseParenthesized str 0 = Except.error e := by
  have hnwsp0 : SkipWhiteSpace str 0 false = 0 :=
    skipWhiteSpace_fix str 0 false '(' h0 (by simp)
  have hlen0 : ¬ str.length ≤ 0 := by
    have := lt_of_getElem? str 0 '(' h0
    omega
  have hlt1 : 1 < str.length := lt_of_getElem? str 1 '{' h1
  have hnwsp1 : SkipWhiteSpace str 1 true = 1 :=
    skipWhiteSpace_fix str 1 true '{' h1 (by simp)
  have ha : TryAtom str 1 = Except.error e :=
    TryAtom_literal_error str 1 e (TryString_none str 1 '{' h1 (by simp)) hl
  rw [ParseParenthesized]
  simp only [hnwsp0, hlen0, if_false, h0, ne_eq, not_true_eq_false, ite_false,
    ite_true, reduceIte, not_false_eq_true]
  rw [parseLoop, dif_pos hlt1]
  simp only [hnwsp1, h1, ha]
  rfl

/-! Lemmas about the decimal helpers and the tag state machine. -/

theorem digitsToNat_snoc (l : List Char) (c : Char) :
    digitsToNat (l ++ [c]) = (digitsToNat l) * 10 + (c.toNat - 48) := by
  simp [digitsToNat]

theorem digitChar_toNat (n : Nat) (h : n < 10) : (digitChar n).toNat = 48 + n := by
  interval_cases n <;> rfl

theorem digitsToNat_natToDigits (n : Nat) : digitsToNat (natToDigits n) = n := by
  induction n using Nat.strong_induction_on with
  | _ n ih =>
    rw [natToDigits]
    split
    · rename_i h
      simp [digitsToNat, digitChar_toNat n h]
    · rename_i h
      rw [digitsToNat_snoc, ih (n / 10) (Nat.div_lt_self (by omega) (by omega)),
        digitChar_toNat (n % 10) (Nat.mod_lt n (by omega))]
      omega

theorem digitsToNat_cons_zero (l : List Char) :
    digitsToNat ('0' :: l) = digitsToNat l := by
  simp [digitsToNat]

theorem digitsToNat_replicate_zero (k : Nat) (l : List Char) :
    digitsToNat (List.replicate k '0' ++ l) = digitsToNat l := by
  induction k with
  | zero => simp
  | succ k ih => simpa [List.replicate_succ, digitsToNat_cons_zero] using ih

theorem tagNumber_generateTagString (n : Nat) :
    tagNumber (generateTagString n) = n := by
  simp [tagNumber, generateTagString, padStart4, digitsToNat_replicate_zero,
    digitsToNat_natToDigits]

theorem stepClient_counter (s : ClientState) (e : ClientEvent) :
    s.tagCounter ≤ (stepClient s e).1.tagCounter := by
  cases e <;> simp [stepClient]

theorem runClient_counter_le (s : ClientState) (es : List ClientEvent) :
    s.tagCounter ≤ (runClient s es).1.tagCounter := by
  induction es generalizing s with
  | nil => simp [runClient]
  | cons e es ih =>
    simp only [runClient]
    exact le_trans (stepClient_counter s e) (ih _)

theorem runClient_tag_bound (s : ClientState) (es : List ClientEvent)
    (t : List Char) (h : t ∈ (runClient s es).2) :
    s.tagCounter < tagNumber t ∧ tagNumber t ≤ (runClient s es).1.tagCounter := by
  induction es generalizing s with
  | nil => simp [runClient] at h
  | cons e es ih =>
    cases e with
    | generateTag =>
      simp only [runClient, stepClient, Option.toList_some, List.cons_append,
        List.nil_append, List.mem_cons] at h ⊢
      have hcount : (⟨s.tagCounter + 1, s.authenticated, s.selectedMailbox,
          s.capabilities, s.reconnectAttempts, s.isReconnecting⟩ :
            ClientState).tagCounter = s.tagCounter + 1 := rfl
      rcases h with rfl | h
      · rw [tagNumber_generateTagString]
        refine ⟨by omega, ?_⟩
        have hle := runClient_counter_le ⟨s.tagCounter + 1, s.authenticated,
          s.selectedMailbox, s.capabilities, s.reconnectAttempts, s.isReconnecting⟩ es
        rw [hcount] at hle
        exact hle
      · have hb := ih _ h
        rw [hcount] at hb
        exact ⟨by omega, hb.2⟩
    | disconnectReset =>
      simp only [runClient, stepClient, Option.toList_none, List.nil_append] at h ⊢
      exact ih _ h
    | reconnectReset =>
      simp only [runClient, stepClient, Option.toList_none, List.nil_append] at h ⊢
      exact ih _ h

theorem runClient_tags_nodup (s : ClientState) (es : List ClientEvent) :
    (runClient s es).2.Nodup := by
  induction es generalizing s with
  | nil => simp [runClient]
  | cons e es ih =>
    cases e with
    | generateTag =>
      simp only [runClient, stepClient, Option.toList_some, List.cons_append,
        List.nil_append, List.nodup_cons]
      refine ⟨fun hmem => ?_, ih _⟩
      have hb := (runClient_tag_bound _ es _ hmem).1
      rw [tagNumber_generateTagString] at hb
      simp at hb
    | disconnectReset =>
      simp only [runClient, stepClient, Option.toList_none, List.nil_append]
      exact ih _
    | reconnectReset =>
      simp only [runClient, stepClient, Option.toList_none, List.nil_append]
      exact ih _

/-- C10: the tag counter is incremented on every tag allocation and is reset
    neither by the disconnect state reset nor by the reconnect state reset,
    so the tags issued over any event sequence of one client instance,
    disconnections and reconnections included, are pairwise distinct. -/
theorem tag_counter_never_reset_tags_unique :
    (∀ s : ClientState,
      (stepClient s ClientEvent.generateTag).1.tagCounter = s.tagCounter + 1) ∧
    (∀ s : ClientState,
      (stepClient s ClientEvent.disconnectReset).1.tagCounter = s.tagCounter) ∧
    (∀ s : ClientState,
      (stepClient s ClientEvent.reconnectReset).1.tagCounter = s.tagCounter) ∧
    (∀ es : List ClientEvent, ((runClient initialClientState es).2).Nodup) := by
  exact ⟨fun s => rfl, fun s => rfl, fun s => rfl,
    fun es => runClient_tags_nodup initialClientState es⟩

/-- C8: with reconnectDelay 1000 and the default maximum of three attempts,
    a reconnect run in which every attempt fails waits 1000, 2000 and 4000
    milliseconds (delay times 2 to the attempt number) before the attempts,
    then raises the fatal connection error and stops. -/
theorem reconnect_backoff_waits_then_fatal :
    DEFAULT_maxReconnectAttempts = 3 ∧ DEFAULT_reconnectDelay = 1000 ∧
    ∀ succeeds : Nat → Bool, (∀ i, i < 3 → succeeds i = false) →
      reconnectLoop 3 1000 succeeds =
        ([1000, 2000, 4000], ReconnectResult.connectionError 3) := by
  refine ⟨rfl, rfl, fun f h => ?_⟩
  have h0 := h 0 (by omega)
  have h1 := h 1 (by omega)
  have h2 := h 2 (by omega)
  rw [reconnectLoop]
  rw [reconnectGo]
  simp only [h0, if_false, if_true, Nat.lt_irrefl]
  rw [reconnectGo]
  simp only [h1]
  rw [reconnectGo]
  simp only [h2]
  rw [reconnectGo]
  norm_num

/-- Witness for C8 at the concrete always-failing attempt function. -/
theorem reconnect_backoff_waits_then_fatal_witness :
    reconnectLoop 3 1000 (fun _ => false) =
      ([1000, 2000, 4000], ReconnectResult.connectionError 3) :=
  reconnect_backoff_waits_then_fatal.2.2 (fun _ => false) (fun _ _ => rfl)

/-! Lemmas about the sort compiler. -/

theorem foldl_stepEntry_fst (nf : Bool) (entries : List (String × String))
    (acc : List OrderByInstruction × Option String) :
    (entries.foldl (stepEntry nf) acc).1 =
      acc.1 ++ entries.filterMap (instrOfEntry nf) := by
  induction entries generalizing acc with
  | nil => simp
  | cons kv es ih =>
    simp only [List.foldl_cons, List.filterMap_cons]
    rw [ih]
    cases h : instrOfEntry nf kv <;> simp [stepEntry, h]

theorem foldl_stepSortKey_fst (keys : List SortKey)
    (acc : List OrderByInstruction × Option String) :
    (keys.foldl stepSortKey acc).1 =
      acc.1 ++ (keys.map
        (fun sk => sk.entries.filterMap (instrOfEntry (sortKeyNullsFirst sk)))).flatten := by
  induction keys generalizing acc with
  | nil => simp
  | cons sk ks ih =>
    simp only [List.foldl_cons, List.map_cons, List.flatten]
    rw [ih]
    rw [stepSortKey, foldl_stepEntry_fst]
    simp

theorem instrOfEntry_eq_some (nf : Bool) (kv : String × String)
    (i : OrderByInstruction) (h : instrOfEntry nf kv = some i) :
    (kv.2 = "asc" ∨ kv.2 = "desc") ∧ i.fieldName = kv.1 := by
  unfold instrOfEntry at h
  split at h
  · rename_i ha
    cases h
    exact ⟨Or.inl (by simpa using ha), rfl⟩
  · split at h
    · rename_i _ hd
      cases h
      exact ⟨Or.inr (by simpa using hd), rfl⟩
    · cases h

theorem instrOfEntry_of_dir (nf : Bool) (kv : String × String)
    (h : kv.2 = "asc" ∨ kv.2 = "desc") :
    ∃ i, instrOfEntry nf kv = some i ∧ i.fieldName = kv.1 := by
  rcases h with h | h
  · exact ⟨⟨kv.1, 1, nf⟩, by simp [instrOfEntry, h], rfl⟩
  · refine ⟨⟨kv.1, -1, nf⟩, ?_, rfl⟩
    by_cases ha : kv.2 = "asc"
    · rw [h] at ha
      simp at ha
    · simp [instrOfEntry, ha, h]

/-- C9: the limited flag of MakeOrderBy is true exactly when every requested
    sort key entry (every entry whose value is asc or desc) names the seq
    field; in particular ordering by seq ascending alone gives limited true
    and ordering by receivedDate descending gives limited false. -/
theorem makeOrderBy_limited_iff_seq_only :
    (∀ keys : List SortKey, (MakeOrderBy (some keys)).limited = true ↔
      ∀ sk ∈ keys, ∀ kv ∈ sk.entries,
        kv.2 = "asc" ∨ kv.2 = "desc" → kv.1 = "seq") ∧
    (MakeOrderBy (some [⟨[("seq", "asc")]⟩])).limited = true ∧
    (MakeOrderBy (some [⟨[("receivedDate", "desc")]⟩])).limited = false := by
  refine ⟨fun keys => ?_, by decide, by decide⟩
  simp only [MakeOrderBy, foldl_stepSortKey_fst, List.nil_append,
    Bool.not_eq_true', List.any_eq_false, bne_iff_ne, ne_eq, Decidable.not_not]
  constructor
  · intro h sk hsk kv hkv hv
    obtain ⟨i, hi, hf⟩ := instrOfEntry_of_dir (sortKeyNullsFirst sk) kv hv
    have hmem : i ∈ (keys.map
        (fun sk => sk.entries.filterMap (instrOfEntry (sortKeyNullsFirst sk)))).flatten := by
      rw [List.mem_flatten]
      refine ⟨sk.entries.filterMap (instrOfEntry (sortKeyNullsFirst sk)), ?_, ?_⟩
      · exact List.mem_map_of_mem _ hsk
      · exact List.mem_filterMap.2 ⟨kv, hkv, hi⟩
    rw [← hf]
    exact h i hmem
  · intro h i hi
    rw [List.mem_flatten] at hi
    obtain ⟨l, hl, hil⟩ := hi
    rw [List.mem_map] at hl
    obtain ⟨sk, hsk, rfl⟩ := hl
    rw [List.mem_filterMap] at hil
    obtain ⟨kv, hkv, hkvi⟩ := hil
    obtain ⟨hv, hf⟩ := instrOfEntry_eq_some _ _ _ hkvi
    rw [hf]
    exact h sk hsk kv hkv hv

/-- C1: the grouper never starts a new group on a FETCH-shaped line while
    mid-literal: any line consumed while the declared literal byte count is
    not yet satisfied is appended to the current group, the consumed count
    growing by the line length plus 2 for CRLF and literal mode persisting
    exactly while the count stays below the declared size; consequently a
    FETCH record whose literal content carries a star-2-FETCH shaped line
    yields one group, not two. -/
theorem fetch_grouping_no_split_inside_literal :
    (∀ (st : GroupState) (line : Line), st.inLiteral = true →
      (stepGroup st line).messageGroups = st.messageGroups ∧
      (stepGroup st line).currentGroup = st.currentGroup ++ [line] ∧
      (stepGroup st line).literalCollected = st.literalCollected + line.length + 2 ∧
      ((stepGroup st line).inLiteral = true ↔
        st.literalCollected + line.length + 2 < st.literalSize)) ∧
    groupFetchLines
        ["* 1 FETCH (BODY[] {20}".toList, "* 2 FETCH (FLAGS ())".toList] =
      [["* 1 FETCH (BODY[] {20}".toList, "* 2 FETCH (FLAGS ())".toList]] := by
  constructor
  · intro st line h
    refine ⟨?_, ?_, ?_, ?_⟩
    · simp [stepGroup, h]
    · simp [stepGroup, h]
    · simp [stepGroup, h]
    · simp [stepGroup, h, Nat.lt_iff_add_one_le]
  · decide

/-- Witness for C1 at a concrete mid-literal state and FETCH-shaped line. -/
theorem fetch_grouping_no_split_inside_literal_witness :
    (stepGroup ⟨[], ["* 1 FETCH (BODY[] {30}".toList], true, 30, 0⟩
        "* 2 FETCH (X)".toList).messageGroups = [] :=
  (fetch_grouping_no_split_inside_literal.1
    ⟨[], ["* 1 FETCH (BODY[] {30}".toList], true, 30, 0⟩
    "* 2 FETCH (X)".toList rfl).1

/-- C3: contrary to the claim that the matcher evaluates each criterion
    against the corresponding field (uid against uid, size against size, gte
    holding exactly when the field is at least the bound), the source checks
    the uid and size criteria against the sequence number and inverts the
    range comparisons: a message with uid 5 fails the filter uid equal 5 when
    its seq is 1, and a message with seq 5 fails the filter seq gte 3. -/
theorem matchesWhere_uid_size_against_seq_and_inverted_ranges :
    (MatchesWhere ⟨none, some (WhereValueNum.value 5), none, none, none, none⟩
        ⟨1, some 5, 100, none, [], none⟩ = false ∧
      (⟨1, some 5, 100, none, [], none⟩ : ImapMessage).uid = some 5) ∧
    (MatchesWhere
        ⟨some (WhereValueNum.range ⟨none, none, some 3, none, none, none, none⟩),
          none, none, none, none, none⟩
        ⟨5, none, 100, none, [], none⟩ = false ∧
      3 ≤ (⟨5, none, 100, none, [], none⟩ : ImapMessage).seq) := by
  exact ⟨⟨by decide, rfl⟩, ⟨by decide, by decide⟩⟩

/-- C4: the gte bound of a receivedDate filter compiles to a SINCE term on
    the epoch one day before the bound, as the claim states; but the lte
    bound compiles to another SINCE term (on the epoch one day after the
    bound), not to the BEFORE term the claim states, and likewise the
    envelope date lte compiles to SENTSINCE. -/
theorem makeWhereQuery_date_bounds_terms :
    (∀ d : Int, MakeWhereQueryReceivedDate
        (some (WhereValueDate.range ⟨none, none, some d, none, none, none, none⟩)) =
      some ("SINCE", d - FULL_DAY)) ∧
    (∀ d : Int, MakeWhereQueryReceivedDate
        (some (WhereValueDate.range ⟨none, none, none, some d, none, none, none⟩)) =
      some ("SINCE", d + FULL_DAY)) ∧
    (MakeWhereQueryReceivedDate
        (some (WhereValueDate.range ⟨none, none, none, some 0, none, none, none⟩))).map
      Prod.fst ≠ some "BEFORE" ∧
    (∀ d : Int, MakeWhereQueryEnvelopeDate
        (some (WhereValueDate.range ⟨none, none, none, some d, none, none, none⟩)) =
      some ("SENTSINCE", d + FULL_DAY)) := by
  refine ⟨fun d => rfl, fun d => rfl, by decide, fun d => rfl⟩

/-- C5: the filter hasNone Seen compiles to the fragment NOT SEEN, as the
    claim states; but the safe-character validation is defeated by the
    multiline flag of the pattern, so a flag containing a newline followed by
    unsafe characters is not dropped and its unsafe characters are emitted
    into the command text. -/
theorem flags_hasNone_seen_and_multiline_injection :
    MakeWhereQueryFlags ⟨none, none, none, some ["Seen"]⟩ = " NOT SEEN" ∧
    MakeWhereQueryFlags ⟨none, none, none, some ["Seen\n!"]⟩ = " NOT SEEN\n!" ∧
    isSafeFlagChar '!' = false ∧ isSafeFlagChar '\n' = false := by
  refine ⟨by decide, by decide, rfl, rfl⟩

/-- C6: decoding the example envelope token list with NIL date, subject
    Subj, one from group holding the address user at example.com and NIL in
    every remaining position yields subject Subj, a one-element from list
    with that mailbox and host, and an empty to list; and whenever the
    subject position is NIL or absent, the decoded subject is the empty
    string, never an absent value. -/
theorem parseEnvelope_example_and_nil_subject :
    (let v : List PV :=
      [PV.tok "NIL".toList, PV.tok "\"Subj\"".toList,
       PV.list [PV.list [PV.tok "NIL".toList, PV.tok "NIL".toList,
         PV.tok "\"user\"".toList, PV.tok "\"example.com\"".toList]],
       PV.tok "NIL".toList, PV.tok "NIL".toList, PV.tok "NIL".toList,
       PV.tok "NIL".toList, PV.tok "NIL".toList]
     (ParseEnvelope v).subject = "Subj".toList ∧
       (ParseEnvelope v).«from» =
         [⟨none, none, some "user".toList, some "example.com".toList⟩] ∧
       (ParseEnvelope v).«to» = []) ∧
    ∀ value : List PV,
      value[1]? = none ∨ value[1]? = some (PV.tok "NIL".toList) →
      (ParseEnvelope value).subject = [] := by
  refine ⟨⟨by decide, by decide, by decide⟩, fun value h => ?_⟩
  rcases h with h | h <;> simp [ParseEnvelope, GetParameterListStr, h, ParameterString]

/-- Witness for C6 at the empty token list, whose subject position is
    absent. -/
theorem parseEnvelope_example_and_nil_subject_witness :
    (ParseEnvelope []).subject = [] :=
  parseEnvelope_example_and_nil_subject.2 [] (Or.inl rfl)

theorem executeCommandLoop_split (tag command : String) (acc pre : List String)
    (completion : String) (rest : List String)
    (hpre : ∀ l ∈ pre, listStartsWith tag.data l.data = false)
    (hc : listStartsWith tag.data completion.data = true) :
    executeCommandLoop tag command acc (pre ++ completion :: rest) =
      if containsOK completion then
        ExecOutcome.completed (acc ++ pre ++ [completion])
      else ExecOutcome.commandError command completion := by
  induction pre generalizing acc with
  | nil =>
    simp only [List.nil_append, executeCommandLoop, hc, if_true]
    by_cases hok : containsOK completion <;> simp [hok]
  | cons l ls ih =>
    have hl := hpre l (by simp)
    simp only [List.cons_append, executeCommandLoop, hl, Bool.false_eq_true,
      if_false, List.append_eq]
    rw [ih (acc ++ [l]) (fun x hx => hpre x (by simp [hx]))]
    by_cases hok : containsOK completion <;> simp [hok]

/-- C7 counterexample: on a stream of one untagged data line followed by an
    OK completion line bearing the tag, the resolved response body is the
    two lines including the completion line, not only the lines read before
    it. -/
theorem executeCommand_body_not_only_prior_lines :
    executeCommand "A0001" "NOOP" ["* DATA", "A0001 OK done"] =
      ExecOutcome.completed ["* DATA", "A0001 OK done"] ∧
    executeCommand "A0001" "NOOP" ["* DATA", "A0001 OK done"] ≠
      ExecOutcome.completed ["* DATA"] := by
  exact ⟨by decide, by decide⟩

/-- C7 amended: the session reads lines until the first line that starts
    with the tag; that completion line yields the command error carrying the
    command and the raw line when it lacks an OK marker, and otherwise all
    lines read, in arrival order and the completion line included, are
    returned as the response body. -/
theorem executeCommand_reads_to_tag_and_returns_lines :
    ∀ (tag command : String) (pre : List String) (completion : String)
      (rest : List String),
      (∀ l ∈ pre, listStartsWith tag.data l.data = false) →
      listStartsWith tag.data completion.data = true →
      executeCommand tag command (pre ++ completion :: rest) =
        if containsOK completion then
          ExecOutcome.completed (pre ++ [completion])
        else ExecOutcome.commandError command completion := by
  intro tag command pre completion rest hpre hc
  rw [executeCommand, executeCommandLoop_split tag command [] pre completion rest hpre hc]
  simp

/-- Witness for C7 at a concrete one-line-then-completion stream. -/
theorem executeCommand_reads_to_tag_and_returns_lines_witness :
    executeCommand "A1" "NOOP" (["* X"] ++ "A1 OK" :: []) =
      (if containsOK "A1 OK" then ExecOutcome.completed (["* X"] ++ ["A1 OK"])
       else ExecOutcome.commandError "NOOP" "A1 OK") :=
  executeCommand_reads_to_tag_and_returns_lines "A1" "NOOP" ["* X"] "A1 OK" []
    (by decide) rfl

/-- C2: an input carrying a literal header that declares more bytes than the
    input still holds after the line terminator makes the
    parenthesized-structure parser throw the not-enough-bytes parse error
    (standalone, inside a parenthesized list, and with a bare line-feed
    terminator alike); and a token successfully produced by TryLiteral never
    reaches past the end of the input, so a truncated literal is never
    returned. -/
theorem parse_insufficient_literal_throws :
    (∀ digits rest : List Char, digits ≠ [] →
      (∀ c ∈ digits, c.isDigit = true) → rest.length < digitsToNat digits →
      ParseParenthesized ('{' :: (digits ++ '}' :: '\r' :: '\n' :: rest)) 0 =
          Except.error "Not enough bytes present for string literal" ∧
        ParseParenthesized ('(' :: '{' :: (digits ++ '}' :: '\r' :: '\n' :: rest)) 0 =
          Except.error "Not enough bytes present for string literal" ∧
        ParseParenthesized ('{' :: (digits ++ '}' :: '\n' :: rest)) 0 =
          Except.error "Not enough bytes present for string literal") ∧
    ∀ (str : List Char) (off : Nat) (t : TokenResult) (e : Nat),
      TryLiteral str off = Except.ok (some t) → t.reached = some e →
        e ≤ str.length := by
  constructor
  · intro digits rest hne hd hlen
    refine ⟨?_, ?_, ?_⟩
    · apply ParseParenthesized_brace_start _ (by simp)
      have := TryLiteral_insufficient_crlf [] digits rest hne hd hlen
      simpa using this
    · apply ParseParenthesized_paren_brace _ (by simp) (by simp)
      have := TryLiteral_insufficient_crlf ['('] digits rest hne hd hlen
      simpa using this
    · apply ParseParenthesized_brace_start _ (by simp)
      have := TryLiteral_insufficient_lf [] digits rest hne hd hlen
      simpa using this
  · exact TryLiteral_ok_reached_le

/-- Witness for C2: a literal declaring 5 bytes followed by no bytes at
    all. -/
theorem parse_insufficient_literal_throws_witness :
    ParseParenthesized ('{' :: (['5'] ++ '}' :: '\r' :: '\n' :: [])) 0 =
      Except.error "Not enough bytes present for string literal" :=
  (parse_insufficient_literal_throws.1 ['5'] [] (by decide) (by decide)
    (by decide)).1

end ImapSpec
